import Mathlib

/-!
# Verification of the amaal-calendar rule-expansion engine

Shallow embedding of `src/lib/expandAmaalEvents.ts` (the rule expander that
turns declarative lunar-month observance rules into concrete calendar events)
together with the date arithmetic it relies on.

Modelling conventions:

* A Luxon `DateTime` produced by `DateTime.fromISO(..).startOf("day")` and
  shifted by whole days is represented by its civil date, encoded as an
  integer epoch-day count (days since 1970-01-01 in the active timezone; the
  timezones the app configures, e.g. Asia/Qatar, have a fixed offset, so
  `plus({days})` on a midnight value is exactly epoch-day addition).
* The distinct instants the expander ever puts into an ISO string are the
  start of a civil day (`startOf("day")`), the end of a civil day
  (`endOf("day")`, 23:59:59.999), and the Fajr/Maghrib prayer instants of a
  civil day as returned by the astronomical provider (the `adhan` library,
  opaque per the design: deterministic in the date for a fixed timezone and
  coordinates, and distinct days yield distinct instants, none of which is
  exactly midnight or the last millisecond of a day).  `Instant` is the
  resulting abstract datatype; equality of rendered ISO strings coincides
  with equality in `Instant`.
* JavaScript `number` values that the expander consumes (day indices, month
  lengths) are integers at every call site; they are modelled as `Int`, with
  JavaScript's truncating `%` rendered as `Int.tmod` and falsiness of `0`
  made explicit where the source tests `!sd`.
-/

/-- Days since 1970-01-01 of the civil date `y-m-d` (proleptic Gregorian,
`y ≥ 1`, `1 ≤ m ≤ 12`).  Standard era-based conversion; used only to name
concrete anchor dates such as 2024-03-11 in the theorems below. -/
def daysFromCivil (y m d : Nat) : Int :=
  let yAdj := if m ≤ 2 then y - 1 else y
  let era := yAdj / 400
  let yoe := yAdj % 400
  let mp := (m + 9) % 12
  let doy := (153 * mp + 2) / 5 + d - 1
  let doe := yoe * 365 + yoe / 4 - yoe / 100 + doy
  (era * 146097 + doe : Int) - 719468

/-- Luxon's `DateTime.weekday`: 1 = Monday .. 7 = Sunday.  1970-01-01 was a
Thursday (= 4). -/
def luxonWeekday (e : Int) : Int :=
  (e + 3) % 7 + 1

/-- The instants the expander renders to ISO strings (see the header comment:
this is the image of `toISO()` on the values the code actually constructs,
with string equality reflected as constructor/date equality). -/
inductive Instant where
  /-- `startOf("day")` of an epoch day: midnight. -/
  | sod : Int → Instant
  /-- `endOf("day")` of an epoch day: 23:59:59.999. -/
  | eod : Int → Instant
  /-- The Fajr (dawn) instant of an epoch day, from the prayer-time provider. -/
  | fajr : Int → Instant
  /-- The Maghrib (dusk) instant of an epoch day, from the prayer-time provider. -/
  | maghrib : Int → Instant
deriving DecidableEq, Repr

/-- The civil date an instant falls on. -/
def instantDay : Instant → Int
  | .sod e => e
  | .eod e => e
  | .fajr e => e
  | .maghrib e => e

/-- `period` field of a rule: `"day" | "night" | "day_and_night"`. -/
inductive Period where
  | day
  | night
  | day_and_night
deriving DecidableEq, Repr

/-- `rule_kind` field of a rule. -/
inductive RuleKind where
  | specific
  | range
  | month_all
  | month_any_time
  | weekday
  | weekday_multi
  | night_general
  | unspecified
deriving DecidableEq, Repr

/-- `StandardItem` from `expandAmaalEvents.ts`.  `label` is a plain string
(JS falsiness of `""` is modelled explicitly at the use sites); `sections`
is an opaque payload passed through unchanged, modelled as an uninterpreted
string. -/
structure StandardItem where
  id : String
  hijri_month : String
  label : String
  period : Period
  rule_kind : RuleKind
  start_day : Option Int
  end_day : Option Int
  weekdays : Option (List String)
  text : String
  sections : Option String
deriving DecidableEq, Repr

/-- `MonthConfig`: `startDateISO` is the parsed civil date (epoch day) of
lunar day 1; `length` is the month's day count (29 or 30 by the TS type; kept
as `Int`, with that range as a hypothesis where a theorem needs it). -/
structure MonthConfig where
  startDateISO : Int
  length : Int
deriving DecidableEq, Repr

/-- Geographic coordinates (opaque to the expansion logic: they only feed the
prayer-time provider, which is abstracted per the design). -/
structure Coords where
  lat : Int
  lon : Int
deriving DecidableEq, Repr

/-- `ExpandedEvent` from `expandAmaalEvents.ts`.  `startISO`/`endISO` hold the
instants whose ISO renderings the code stores. -/
structure ExpandedEvent where
  id : String
  title : String
  startISO : Instant
  endISO : Instant
  allDay : Bool
  description : String
  sections : Option String
  color : String
deriving DecidableEq, Repr

/-- `StandardAmaal`: metadata (opaque) plus the rule list. -/
structure StandardAmaal where
  meta : Option String
  items : List StandardItem
deriving DecidableEq, Repr

/-- JavaScript `a || b` on strings: `""` is falsy. -/
def jsOr (a b : String) : String :=
  if a = "" then b else a

/-- JavaScript whitespace (`\s`) for the characters that can occur here. -/
def isJsSpace (c : Char) : Bool :=
  c = ' ' || c = '\t' || c = '\n' || c = '\r'

/-- JavaScript `String.prototype.trim`: strip leading and trailing
whitespace. -/
def jsTrim (cs : List Char) : List Char :=
  ((cs.dropWhile isJsSpace).reverse.dropWhile isJsSpace).reverse

/-- JavaScript `toLowerCase` on the characters month names use (ASCII
letters; other characters are untouched). -/
def jsToLower (c : Char) : Char :=
  if 'A' ≤ c ∧ c ≤ 'Z' then Char.ofNat (c.toNat + 32) else c

/-- Collapse runs of whitespace to a single `' '` (the `replace(/\s+/g, " ")`
step); `prevSpace` records whether the previous character was whitespace. -/
def collapseSpacesAux : List Char → Bool → List Char
  | [], _ => []
  | c :: rest, prevSpace =>
    if isJsSpace c then
      (if prevSpace then [] else [' ']) ++ collapseSpacesAux rest true
    else
      c :: collapseSpacesAux rest false

/-- `normMonth`: trim, lower-case, normalise apostrophes (the regex class
`['']` holds plain apostrophes, so that step maps `'` to itself), collapse
whitespace runs. -/
def normMonth (s : String) : String :=
  let lowered := (jsTrim s.data).map jsToLower
  let apos := lowered.map (fun c => if c = '\'' then '\'' else c)
  ⟨collapseSpacesAux apos false⟩

/-- `hijriDayToGregorian`: lunar day `hijriDay` of the configured month is the
civil date `startDateISO + (hijriDay - 1)` days. -/
def hijriDayToGregorian (cfg : MonthConfig) (hijriDay : Int) : Int :=
  cfg.startDateISO + (hijriDay - 1)

/-- `weekdayToLuxon`: weekday code → Luxon weekday number, unrecognised codes
map to the sentinel `0` (`map[weekday] ?? 0`). -/
def weekdayToLuxon (w : String) : Int :=
  (([("MON", 1), ("TUE", 2), ("WED", 3), ("THU", 4),
     ("FRI", 5), ("SAT", 6), ("SUN", 7)] : List (String × Int)).lookup w).getD 0

/-- `getPrayerTimesAccurate`: the astronomical provider, abstracted — for a
civil date it returns that date's (Fajr, Maghrib) instants. -/
def getPrayerTimesAccurate (gregDate : Int) : Instant × Instant :=
  (Instant.fajr gregDate, Instant.maghrib gregDate)

/-- JavaScript array indexing with a possibly negative (or out-of-range)
integer index: yields `undefined` (here `none`). -/
def jsIndex (l : List String) (i : Int) : Option String :=
  if i < 0 then none else l.get? i.toNat

/-- The suffix table `["th", "st", "nd", "rd"]` of `getOrdinal`. -/
def ordSuffixes : List String := ["th", "st", "nd", "rd"]

/-- `getOrdinal` from the expander: `n + (s[(v - 20) % 10] || s[v] || s[0])`
with `v = n % 100`, where `%` is JavaScript's truncating remainder
(`Int.tmod`) and out-of-range/negative indices give `undefined`, skipped by
`||` (every entry of the table is truthy). -/
def getOrdinal (n : Int) : String :=
  let v := n.tmod 100
  let primary := jsIndex ordSuffixes ((v - 20).tmod 10)
  let chosen :=
    match primary with
    | some r => r
    | none =>
      match jsIndex ordSuffixes v with
      | some r => r
      | none => "th"
  toString n ++ chosen

/-- `n` consecutive integers starting at `a`. -/
def intRangeAux (a : Int) : Nat → List Int
  | 0 => []
  | n + 1 => a :: intRangeAux (a + 1) n

/-- The inclusive integer range `[a, b]` traversed by `for (d = a; d <= b; d++)`. -/
def intRange (a b : Int) : List Int :=
  intRangeAux a (b + 1 - a).toNat

/-- The body of the `for (const item of amaal.items)` loop of
`expandAmaalEvents`: the events one rule contributes (a `continue` in the
source ends the corresponding branch). -/
def expandItem (monthConfigs : List (String × MonthConfig)) (item : StandardItem) :
    List ExpandedEvent :=
  match monthConfigs.lookup (normMonth item.hijri_month) with
  | none => []
  | some cfg =>
    let monthLen := cfg.length
    if item.rule_kind = RuleKind.month_all ∨ item.rule_kind = RuleKind.month_any_time then
      -- Month-wide: single all-day spanning event
      let start := hijriDayToGregorian cfg 1
      let endExclusive := hijriDayToGregorian cfg monthLen + 1
      [{ id := item.id
         title := jsOr item.label item.hijri_month
         startISO := Instant.sod start
         endISO := Instant.sod endExclusive
         allDay := true
         description := item.text
         sections := item.sections
         color := "#8b5cf6" }]
    else if item.rule_kind = RuleKind.weekday ∨ item.rule_kind = RuleKind.weekday_multi then
      -- Weekday rules: expand across the month (day window)
      let wds := item.weekdays.getD []
      let target := wds.map weekdayToLuxon
      (intRange 1 monthLen).filterMap (fun d =>
        let g := hijriDayToGregorian cfg d
        if luxonWeekday g ∈ target then
          some { id := item.id ++ "_d" ++ toString d
                 title := jsOr item.label (getOrdinal d ++ " Day")
                 startISO := (getPrayerTimesAccurate g).1
                 endISO := (getPrayerTimesAccurate g).2
                 allDay := false
                 description := item.text
                 sections := item.sections
                 color := "#059669" }
        else none)
    else
      -- Range/specific (also night_general / unspecified)
      match item.start_day with
      | none => []
      | some sd =>
        -- `if (!sd) continue;`  — 0 is falsy in JavaScript
        if sd = 0 then []
        else
          let startDay := max 1 (min sd monthLen)
          let endDay :=
            match item.end_day with
            | none => monthLen
            | some e => max startDay (min e monthLen)
          if item.period = Period.night then
            (intRange startDay endDay).map (fun d =>
              let gDay := hijriDayToGregorian cfg d
              let eveDay := gDay - 1
              { id := item.id ++ "_night_" ++ toString d
                title := jsOr item.label (getOrdinal d ++ " Night")
                startISO := Instant.sod eveDay
                endISO := Instant.eod eveDay
                allDay := true
                description := item.text
                sections := item.sections
                color := "#2563eb" })
          else if item.period = Period.day then
            (intRange startDay endDay).map (fun d =>
              let gDay := hijriDayToGregorian cfg d
              { id := item.id ++ "_day_" ++ toString d
                title := jsOr item.label (getOrdinal d ++ " Day")
                startISO := (getPrayerTimesAccurate gDay).1
                endISO := (getPrayerTimesAccurate gDay).2
                allDay := false
                description := item.text
                sections := item.sections
                color := "#059669" })
          else
            (intRange startDay endDay).map (fun d =>
              let gDay := hijriDayToGregorian cfg d
              { id := item.id ++ "_allday_" ++ toString d
                title := jsOr item.label (getOrdinal d ++ " Day")
                startISO := Instant.sod gDay
                endISO := Instant.sod (gDay + 1)
                allDay := true
                description := item.text
                sections := item.sections
                color := "#8b5cf6" })

/-- The dedup key `${title}|${startISO}|${endISO}` — ISO strings contain no
`|`, so the string key separates exactly into this triple. -/
def dedupKey (ev : ExpandedEvent) : String × Instant × Instant :=
  (ev.title, ev.startISO, ev.endISO)

/-- The `events.filter` pass with the `seen` set: keep an event iff its key
has not been seen yet. -/
def dedupAux : List ExpandedEvent → List (String × Instant × Instant) → List ExpandedEvent
  | [], _ => []
  | ev :: rest, seen =>
    if dedupKey ev ∈ seen then dedupAux rest seen
    else ev :: dedupAux rest (dedupKey ev :: seen)

/-- Options record of `expandAmaalEvents` (the `Record<string, MonthConfig>`
is an association list keyed by normalised month name; `timezone` and
`coords` only parameterise the abstracted prayer-time provider). -/
structure ExpandOpts where
  amaal : StandardAmaal
  monthConfigs : List (String × MonthConfig)
  timezone : String
  coords : Coords

/-- All events pushed before the dedup pass (the loop over `amaal.items`). -/
def rawEvents (opts : ExpandOpts) : List ExpandedEvent :=
  (opts.amaal.items.map (expandItem opts.monthConfigs)).flatten

/-- `expandAmaalEvents`: per-item expansion followed by the duplicate-removal
safety net. -/
def expandAmaalEvents (opts : ExpandOpts) : List ExpandedEvent :=
  dedupAux (rawEvents opts) []

/-- `const startDay = Math.max(1, Math.min(sd, monthLen))` — the default
path's clamp of `start_day` into `[1, monthLen]`. -/
def resolveStartDay (sd monthLen : Int) : Int :=
  max 1 (min sd monthLen)

/-- `const endDay = item.end_day == null ? monthLen : Math.max(startDay,
Math.min(item.end_day, monthLen))` — the default path's resolution of
`end_day`. -/
def resolveEndDay (startDay : Int) (endDay : Option Int) (monthLen : Int) : Int :=
  match endDay with
  | none => monthLen
  | some e => max startDay (min e monthLen)

/-- The event the default (range/specific/night_general/unspecified) path
pushes for lunar day `d`, per the rule's `period` branch. -/
def mkDefaultEvent (item : StandardItem) (cfg : MonthConfig) (d : Int) : ExpandedEvent :=
  let gDay := hijriDayToGregorian cfg d
  match item.period with
  | Period.night =>
    { id := item.id ++ "_night_" ++ toString d
      title := jsOr item.label (getOrdinal d ++ " Night")
      startISO := Instant.sod (gDay - 1)
      endISO := Instant.eod (gDay - 1)
      allDay := true
      description := item.text
      sections := item.sections
      color := "#2563eb" }
  | Period.day =>
    { id := item.id ++ "_day_" ++ toString d
      title := jsOr item.label (getOrdinal d ++ " Day")
      startISO := (getPrayerTimesAccurate gDay).1
      endISO := (getPrayerTimesAccurate gDay).2
      allDay := false
      description := item.text
      sections := item.sections
      color := "#059669" }
  | Period.day_and_night =>
    { id := item.id ++ "_allday_" ++ toString d
      title := jsOr item.label (getOrdinal d ++ " Day")
      startISO := Instant.sod gDay
      endISO := Instant.sod (gDay + 1)
      allDay := true
      description := item.text
      sections := item.sections
      color := "#8b5cf6" }

/-- The event the weekday branch pushes for a matching lunar day `d`. -/
def mkWeekdayEvent (item : StandardItem) (cfg : MonthConfig) (d : Int) : ExpandedEvent :=
  let g := hijriDayToGregorian cfg d
  { id := item.id ++ "_d" ++ toString d
    title := jsOr item.label (getOrdinal d ++ " Day")
    startISO := (getPrayerTimesAccurate g).1
    endISO := (getPrayerTimesAccurate g).2
    allDay := false
    description := item.text
    sections := item.sections
    color := "#059669" }

/-- The color literal each branch of the expander assigns, as a function of
the rule's kind and period (read off the branch structure of `expandItem`). -/
def colorOf (kind : RuleKind) (per : Period) : String :=
  if kind = RuleKind.month_all ∨ kind = RuleKind.month_any_time then "#8b5cf6"
  else if kind = RuleKind.weekday ∨ kind = RuleKind.weekday_multi then "#059669"
  else
    match per with
    | Period.night => "#2563eb"
    | Period.day => "#059669"
    | Period.day_and_night => "#8b5cf6"

theorem mem_intRangeAux {n : Nat} {a d : Int} :
    d ∈ intRangeAux a n ↔ a ≤ d ∧ d < a + n := by
  induction n generalizing a with
  | zero =>
    simp only [intRangeAux, List.not_mem_nil, false_iff]
    omega
  | succ m ih =>
    simp only [intRangeAux, List.mem_cons, ih]
    omega

theorem length_intRangeAux (a : Int) (n : Nat) : (intRangeAux a n).length = n := by
  induction n generalizing a with
  | zero => rfl
  | succ m ih => simp [intRangeAux, ih]

theorem nodup_intRangeAux (a : Int) (n : Nat) : (intRangeAux a n).Nodup := by
  induction n generalizing a with
  | zero => simp [intRangeAux]
  | succ m ih =>
    simp only [intRangeAux, List.nodup_cons, mem_intRangeAux]
    exact ⟨by omega, ih _⟩

theorem intRangeAux_getElem (a : Int) (n i : Nat) (h : i < (intRangeAux a n).length) :
    (intRangeAux a n)[i] = a + i := by
  induction n generalizing a i with
  | zero =>
    rw [length_intRangeAux] at h
    omega
  | succ m ih =>
    cases i with
    | zero => simp [intRangeAux]
    | succ j =>
      have hj : j < (intRangeAux (a + 1) m).length := by
        rw [length_intRangeAux]
        rw [length_intRangeAux] at h
        omega
      calc (intRangeAux a (m + 1))[j + 1] = (intRangeAux (a + 1) m)[j] := rfl
        _ = a + 1 + j := ih (a + 1) j hj
        _ = a + (j + 1 : Nat) := by push_cast; ring

theorem mem_intRange {a b d : Int} : d ∈ intRange a b ↔ a ≤ d ∧ d ≤ b := by
  rw [intRange, mem_intRangeAux]
  omega

theorem length_intRange (a b : Int) : (intRange a b).length = (b + 1 - a).toNat := by
  rw [intRange, length_intRangeAux]

theorem nodup_intRange (a b : Int) : (intRange a b).Nodup :=
  nodup_intRangeAux a _

theorem intRange_getElem (a b : Int) (i : Nat) (h : i < (intRange a b).length) :
    (intRange a b)[i] = a + i :=
  intRangeAux_getElem a _ i h

/-- A `filterMap` whose function is an if-then-some-else-none is a filter
followed by a map. -/
theorem filterMap_ite {α β : Type} (p : α → Prop) [DecidablePred p] (g : α → β) (l : List α) :
    l.filterMap (fun x => if p x then some (g x) else none) =
      (l.filter (fun x => decide (p x))).map g := by
  induction l with
  | nil => rfl
  | cons x xs ih =>
    by_cases hx : p x <;> simp [hx, ih]

theorem luxonWeekday_bounds (e : Int) : 1 ≤ luxonWeekday e ∧ luxonWeekday e ≤ 7 := by
  unfold luxonWeekday
  omega

/-- Every rule kind falls into one of the three branch groups of the expander. -/
theorem ruleKind_cases (k : RuleKind) :
    (k = RuleKind.month_all ∨ k = RuleKind.month_any_time) ∨
    (k = RuleKind.weekday ∨ k = RuleKind.weekday_multi) ∨
    (k = RuleKind.specific ∨ k = RuleKind.range ∨
     k = RuleKind.night_general ∨ k = RuleKind.unspecified) := by
  cases k <;> simp

theorem expandItem_lookup_none (cfgs : List (String × MonthConfig)) (item : StandardItem)
    (h : cfgs.lookup (normMonth item.hijri_month) = none) :
    expandItem cfgs item = [] := by
  simp [expandItem, h]

theorem expandItem_month_eq (cfgs : List (String × MonthConfig)) (item : StandardItem)
    (cfg : MonthConfig)
    (hcfg : cfgs.lookup (normMonth item.hijri_month) = some cfg)
    (hkind : item.rule_kind = RuleKind.month_all ∨ item.rule_kind = RuleKind.month_any_time) :
    expandItem cfgs item =
      [{ id := item.id
         title := jsOr item.label item.hijri_month
         startISO := Instant.sod cfg.startDateISO
         endISO := Instant.sod (cfg.startDateISO + cfg.length)
         allDay := true
         description := item.text
         sections := item.sections
         color := "#8b5cf6" }] := by
  have h1 : hijriDayToGregorian cfg 1 = cfg.startDateISO := by
    simp [hijriDayToGregorian]
  have h2 : hijriDayToGregorian cfg cfg.length + 1 = cfg.startDateISO + cfg.length := by
    simp only [hijriDayToGregorian]
    omega
  simp only [expandItem, hcfg]
  rw [if_pos hkind, h1, h2]

theorem expandItem_weekday_eq (cfgs : List (String × MonthConfig)) (item : StandardItem)
    (cfg : MonthConfig)
    (hcfg : cfgs.lookup (normMonth item.hijri_month) = some cfg)
    (hkind : item.rule_kind = RuleKind.weekday ∨ item.rule_kind = RuleKind.weekday_multi) :
    expandItem cfgs item =
      (intRange 1 cfg.length).filterMap (fun d =>
        if luxonWeekday (hijriDayToGregorian cfg d) ∈
            (item.weekdays.getD []).map weekdayToLuxon then
          some (mkWeekdayEvent item cfg d)
        else none) := by
  have hnm : ¬(item.rule_kind = RuleKind.month_all ∨
      item.rule_kind = RuleKind.month_any_time) := by
    rcases hkind with hk | hk <;> simp [hk]
  simp only [expandItem, hcfg]
  rw [if_neg hnm, if_pos hkind]
  rfl

theorem expandItem_default_skip (cfgs : List (String × MonthConfig)) (item : StandardItem)
    (hkind : item.rule_kind = RuleKind.specific ∨ item.rule_kind = RuleKind.range ∨
      item.rule_kind = RuleKind.night_general ∨ item.rule_kind = RuleKind.unspecified)
    (hsd : item.start_day = none ∨ item.start_day = some 0) :
    expandItem cfgs item = [] := by
  have hnm : ¬(item.rule_kind = RuleKind.month_all ∨
      item.rule_kind = RuleKind.month_any_time) := by
    rcases hkind with hk | hk | hk | hk <;> simp [hk]
  have hnw : ¬(item.rule_kind = RuleKind.weekday ∨
      item.rule_kind = RuleKind.weekday_multi) := by
    rcases hkind with hk | hk | hk | hk <;> simp [hk]
  cases hl : cfgs.lookup (normMonth item.hijri_month) with
  | none => simp [expandItem, hl]
  | some cfg =>
    rcases hsd with hsd | hsd <;> simp [expandItem, hl, hnm, hnw, hsd]

theorem expandItem_default_eq (cfgs : List (String × MonthConfig)) (item : StandardItem)
    (cfg : MonthConfig)
    (hcfg : cfgs.lookup (normMonth item.hijri_month) = some cfg)
    (hkind : item.rule_kind = RuleKind.specific ∨ item.rule_kind = RuleKind.range ∨
      item.rule_kind = RuleKind.night_general ∨ item.rule_kind = RuleKind.unspecified)
    (sd : Int) (hsd : item.start_day = some sd) (h0 : sd ≠ 0) :
    expandItem cfgs item =
      (intRange (resolveStartDay sd cfg.length)
        (resolveEndDay (resolveStartDay sd cfg.length) item.end_day cfg.length)).map
        (mkDefaultEvent item cfg) := by
  have hnm : ¬(item.rule_kind = RuleKind.month_all ∨
      item.rule_kind = RuleKind.month_any_time) := by
    rcases hkind with hk | hk | hk | hk <;> simp [hk]
  have hnw : ¬(item.rule_kind = RuleKind.weekday ∨
      item.rule_kind = RuleKind.weekday_multi) := by
    rcases hkind with hk | hk | hk | hk <;> simp [hk]
  cases hper : item.period <;> cases hend : item.end_day <;>
    simp [expandItem, hcfg, hnm, hnw, hsd, h0, hper, hend, mkDefaultEvent,
      resolveStartDay, resolveEndDay]

/-- `mkDefaultEvent` is injective in the day (the start instants differ). -/
theorem mkDefaultEvent_inj (item : StandardItem) (cfg : MonthConfig) {d e : Int}
    (h : mkDefaultEvent item cfg d = mkDefaultEvent item cfg e) : d = e := by
  have hs := congrArg ExpandedEvent.startISO h
  cases hper : item.period <;>
    · simp only [mkDefaultEvent, hper, hijriDayToGregorian, getPrayerTimesAccurate,
        Instant.sod.injEq, Instant.eod.injEq, Instant.fajr.injEq,
        Instant.maghrib.injEq] at hs
      omega

theorem dedupAux_sublist (l : List ExpandedEvent) (seen : List (String × Instant × Instant)) :
    (dedupAux l seen).Sublist l := by
  induction l generalizing seen with
  | nil => simp [dedupAux]
  | cons ev rest ih =>
    by_cases hs : dedupKey ev ∈ seen
    · simp only [dedupAux, if_pos hs]
      exact (ih seen).trans (List.sublist_cons_self ev rest)
    · simp only [dedupAux, if_neg hs]
      exact (ih _).cons₂ ev

theorem dedupAux_mem_key_not_seen (l : List ExpandedEvent)
    (seen : List (String × Instant × Instant)) (ev : ExpandedEvent)
    (h : ev ∈ dedupAux l seen) : dedupKey ev ∉ seen := by
  induction l generalizing seen with
  | nil => simp [dedupAux] at h
  | cons e rest ih =>
    by_cases hs : dedupKey e ∈ seen
    · rw [dedupAux, if_pos hs] at h
      exact ih seen h
    · rw [dedupAux, if_neg hs] at h
      rcases List.mem_cons.mp h with rfl | h2
      · exact hs
      · intro hc
        exact ih _ h2 (List.mem_cons_of_mem _ hc)

theorem dedupAux_pairwise (l : List ExpandedEvent) (seen : List (String × Instant × Instant)) :
    (dedupAux l seen).Pairwise (fun a b => dedupKey a ≠ dedupKey b) := by
  induction l generalizing seen with
  | nil => simp [dedupAux]
  | cons e rest ih =>
    by_cases hs : dedupKey e ∈ seen
    · rw [dedupAux, if_pos hs]
      exact ih seen
    · rw [dedupAux, if_neg hs]
      refine List.Pairwise.cons ?_ (ih _)
      intro b hb hc
      exact dedupAux_mem_key_not_seen _ _ _ hb (by rw [← hc]; exact List.mem_cons_self _ _)

theorem dedupAux_key_covered (l : List ExpandedEvent)
    (seen : List (String × Instant × Instant)) (ev : ExpandedEvent)
    (hev : ev ∈ l) (hk : dedupKey ev ∉ seen) :
    ∃ evq ∈ dedupAux l seen, dedupKey evq = dedupKey ev := by
  induction l generalizing seen with
  | nil => cases hev
  | cons e rest ih =>
    by_cases hs : dedupKey e ∈ seen
    · rw [dedupAux, if_pos hs]
      rcases List.mem_cons.mp hev with rfl | h2
      · exact absurd hs hk
      · exact ih seen h2 hk
    · rw [dedupAux, if_neg hs]
      by_cases hke : dedupKey ev = dedupKey e
      · exact ⟨e, List.mem_cons_self _ _, hke.symm⟩
      · rcases List.mem_cons.mp hev with rfl | h2
        · exact absurd rfl hke
        · obtain ⟨q, hq, hqk⟩ := ih (dedupKey e :: seen) h2
            (by intro hc
                rcases List.mem_cons.mp hc with h | h
                exacts [hke h, hk h])
          exact ⟨q, List.mem_cons_of_mem _ hq, hqk⟩

theorem dedupAux_first_mem (l1 : List ExpandedEvent) (ev : ExpandedEvent)
    (l2 : List ExpandedEvent) (seen : List (String × Instant × Instant))
    (hfirst : ∀ e ∈ l1, dedupKey e ≠ dedupKey ev) (hk : dedupKey ev ∉ seen) :
    ev ∈ dedupAux (l1 ++ ev :: l2) seen := by
  induction l1 generalizing seen with
  | nil =>
    rw [List.nil_append, dedupAux, if_neg hk]
    exact List.mem_cons_self _ _
  | cons e rest ih =>
    have hne : dedupKey e ≠ dedupKey ev := hfirst e (List.mem_cons_self _ _)
    by_cases hs : dedupKey e ∈ seen
    · rw [List.cons_append, dedupAux, if_pos hs]
      exact ih seen (fun x hx => hfirst x (List.mem_cons_of_mem _ hx)) hk
    · rw [List.cons_append, dedupAux, if_neg hs]
      refine List.mem_cons_of_mem _ (ih (dedupKey e :: seen)
        (fun x hx => hfirst x (List.mem_cons_of_mem _ hx)) ?_)
      intro hc
      rcases List.mem_cons.mp hc with h | h
      exacts [hne h.symm, hk h]

/-- The suffix `getOrdinal` chooses depends only on `n % 100`; for every
residue it matches the specification's case split (checked exhaustively). -/
theorem ordChoice_spec : ∀ k : Nat, k < 100 →
    (match jsIndex ordSuffixes (((k : Int) - 20).tmod 10) with
     | some r => r
     | none =>
       match jsIndex ordSuffixes (k : Int) with
       | some r => r
       | none => "th") =
    (if 11 ≤ k ∧ k ≤ 13 then "th"
     else if k % 10 = 1 then "st"
     else if k % 10 = 2 then "nd"
     else if k % 10 = 3 then "rd"
     else "th") := by
  decide

/-- C8: for every day number `n ≥ 1`, `getOrdinal n` is `n` followed by "th"
when `n mod 100` is in 11..13, otherwise "st"/"nd"/"rd" when `n mod 10` is
1/2/3, and "th" in all remaining cases; in particular 1 ↦ "1st", 2 ↦ "2nd",
3 ↦ "3rd", 11 ↦ "11th", 21 ↦ "21st". -/
theorem C8_ordinal_suffix (n : Int) (hn : 1 ≤ n) :
    getOrdinal n = toString n ++
      (if 11 ≤ n % 100 ∧ n % 100 ≤ 13 then "th"
       else if n % 10 = 1 then "st"
       else if n % 10 = 2 then "nd"
       else if n % 10 = 3 then "rd"
       else "th") ∧
    getOrdinal 1 = "1st" ∧ getOrdinal 2 = "2nd" ∧ getOrdinal 3 = "3rd" ∧
    getOrdinal 11 = "11th" ∧ getOrdinal 21 = "21st" := by
  refine ⟨?_, by decide, by decide, by decide, by decide, by decide⟩
  have h0 : (0 : Int) ≤ n := by omega
  have htm : n.tmod 100 = n % 100 := Int.tmod_eq_emod h0 (by norm_num)
  have hv0 : (0 : Int) ≤ n % 100 := Int.emod_nonneg n (by norm_num)
  have hv100 : n % 100 < 100 := Int.emod_lt_of_pos n (by norm_num)
  have hcast : (((n % 100).toNat : Int)) = n % 100 := Int.toNat_of_nonneg hv0
  have hklt : (n % 100).toNat < 100 := by omega
  have haux := ordChoice_spec (n % 100).toNat hklt
  rw [hcast] at haux
  simp only [getOrdinal, htm]
  rw [haux]
  have hc1 : (11 ≤ (n % 100).toNat ∧ (n % 100).toNat ≤ 13) ↔
      (11 ≤ n % 100 ∧ n % 100 ≤ 13) := by omega
  have hc2 : ((n % 100).toNat % 10 = 1) ↔ (n % 10 = 1) := by omega
  have hc3 : ((n % 100).toNat % 10 = 2) ↔ (n % 10 = 2) := by omega
  have hc4 : ((n % 100).toNat % 10 = 3) ↔ (n % 10 = 3) := by omega
  simp only [hc1, hc2, hc3, hc4]

/-- Witness for C8 at `n = 21`. -/
theorem C8_ordinal_suffix_witness :
    (1 : Int) ≤ 21 ∧
    getOrdinal 21 = toString (21 : Int) ++
      (if 11 ≤ (21 : Int) % 100 ∧ (21 : Int) % 100 ≤ 13 then "th"
       else if (21 : Int) % 10 = 1 then "st"
       else if (21 : Int) % 10 = 2 then "nd"
       else if (21 : Int) % 10 = 3 then "rd"
       else "th") :=
  ⟨by decide, (C8_ordinal_suffix 21 (by decide)).1⟩

/-- C9: a weekday/weekday_multi rule whose weekday list is null, empty, or
made only of unrecognised codes emits no events (and trivially cannot throw):
every unrecognised code maps to the sentinel 0, which never equals a civil
weekday in 1..7, so the per-day filter matches nothing. -/
theorem C9_unrecognised_weekdays (cfgs : List (String × MonthConfig)) (item : StandardItem)
    (hkind : item.rule_kind = RuleKind.weekday ∨ item.rule_kind = RuleKind.weekday_multi)
    (hw : ∀ w ∈ item.weekdays.getD [], weekdayToLuxon w = 0) :
    expandItem cfgs item = [] := by
  cases hl : cfgs.lookup (normMonth item.hijri_month) with
  | none => exact expandItem_lookup_none _ _ hl
  | some cfg =>
    rw [expandItem_weekday_eq cfgs item cfg hl hkind]
    rw [List.filterMap_eq_nil_iff]
    intro d _
    rw [if_neg]
    intro hmem
    obtain ⟨w, hwmem, hwl⟩ := List.mem_map.mp hmem
    obtain ⟨h1, h2⟩ := luxonWeekday_bounds (hijriDayToGregorian cfg d)
    rw [hw w hwmem] at hwl
    omega

/-- C9 witness rule: only unrecognised weekday codes. -/
def c9_rule : StandardItem :=
  { id := "w9", hijri_month := "rajab", label := "", period := Period.day,
    rule_kind := RuleKind.weekday, start_day := none, end_day := none,
    weekdays := some ["XYZ", "thu", ""], text := "", sections := none }

/-- Witness for C9: a weekday rule with unrecognised codes on a configured
month yields no events. -/
theorem C9_unrecognised_weekdays_witness :
    expandItem [("rajab", { startDateISO := 0, length := 30 })] c9_rule = [] :=
  C9_unrecognised_weekdays _ c9_rule (Or.inl rfl) (by decide)

/-- C5: a rule whose normalised lunar month has no anchor in the month-config
map contributes no events (no failure path exists: `expandItem` is total),
and the whole expansion is the same as if the rule were absent. -/
theorem C5_unconfigured_month (mcfgs : List (String × MonthConfig)) (item : StandardItem)
    (h : mcfgs.lookup (normMonth item.hijri_month) = none)
    (meta : Option String) (tz : String) (coords : Coords)
    (pre post : List StandardItem) :
    expandItem mcfgs item = [] ∧
    expandAmaalEvents ⟨⟨meta, pre ++ item :: post⟩, mcfgs, tz, coords⟩ =
      expandAmaalEvents ⟨⟨meta, pre ++ post⟩, mcfgs, tz, coords⟩ := by
  have h0 := expandItem_lookup_none mcfgs item h
  refine ⟨h0, ?_⟩
  unfold expandAmaalEvents rawEvents
  simp only [List.map_append, List.map_cons, List.flatten_append, List.flatten_cons, h0,
    List.nil_append]

/-- C5 witness rule: month "nawruz" has no anchor in the config map. -/
def c5_rule : StandardItem :=
  { id := "u5", hijri_month := "nawruz", label := "", period := Period.day_and_night,
    rule_kind := RuleKind.specific, start_day := some 1, end_day := some 1,
    weekdays := none, text := "", sections := none }

/-- C5 witness companion rule (its month is configured). -/
def c5_other : StandardItem :=
  { id := "k5", hijri_month := "rajab", label := "L", period := Period.day_and_night,
    rule_kind := RuleKind.specific, start_day := some 2, end_day := some 2,
    weekdays := none, text := "", sections := none }

/-- C5 witness month map: only "rajab" is anchored. -/
def c5_cfgs : List (String × MonthConfig) :=
  [("rajab", { startDateISO := 10, length := 29 })]

/-- Witness for C5: dropping the unanchored rule leaves the expansion
unchanged. -/
theorem C5_unconfigured_month_witness :
    expandItem c5_cfgs c5_rule = [] ∧
    expandAmaalEvents ⟨⟨none, [] ++ c5_rule :: [c5_other]⟩, c5_cfgs, "UTC", ⟨0, 0⟩⟩ =
      expandAmaalEvents ⟨⟨none, [] ++ [c5_other]⟩, c5_cfgs, "UTC", ⟨0, 0⟩⟩ :=
  C5_unconfigured_month c5_cfgs c5_rule (by rfl) none "UTC" ⟨0, 0⟩ [] [c5_other]

/-- C1 counterexample rule: the spec's clamping scenario `startDay = 0`,
`endDay = 99` on a 29-day month. -/
def c1_rule : StandardItem :=
  { id := "c1", hijri_month := "safar", label := "", period := Period.day_and_night,
    rule_kind := RuleKind.range, start_day := some 0, end_day := some 99,
    weekdays := none, text := "", sections := none }

/-- C1 counterexample month anchor (29 days, anchored 2025-08-25). -/
def c1_cfg : MonthConfig := { startDateISO := daysFromCivil 2025 8 25, length := 29 }

/-- C1 counterexample: a range rule with `startDay = 0`, `endDay = 99` on a
29-day month produces NO events — JavaScript's `if (!sd) continue` treats the
falsy day number 0 like a missing `startDay` — rather than events for days
1..29 as the claim states. -/
theorem C1_counterexample_startDay_zero :
    expandItem [("safar", c1_cfg)] c1_rule = [] ∧
    expandAmaalEvents ⟨⟨none, [c1_rule]⟩, [("safar", c1_cfg)], "Asia/Qatar", ⟨25, 51⟩⟩ = []
    ∧ (0 : Nat) ≠ 29 := by
  refine ⟨by decide, by decide, by decide⟩

/-- C1 (amended): on the default path a missing `startDay` — and likewise a
`startDay` of 0, which the falsiness test treats the same way — emits no
events; for any other `startDay` the resolved start is `startDay` clamped
into `[1, length]`, the resolved end is `length` when `endDay` is absent and
otherwise `endDay` clamped into `[resolvedStart, length]`, and exactly one
event is emitted per day from the resolved start through the resolved end
inclusive. -/
theorem C1_default_path_bounds (cfgs : List (String × MonthConfig)) (item : StandardItem)
    (cfg : MonthConfig)
    (hcfg : cfgs.lookup (normMonth item.hijri_month) = some cfg)
    (hkind : item.rule_kind = RuleKind.specific ∨ item.rule_kind = RuleKind.range ∨
      item.rule_kind = RuleKind.night_general ∨ item.rule_kind = RuleKind.unspecified) :
    (item.start_day = none ∨ item.start_day = some 0 → expandItem cfgs item = []) ∧
    (∀ sd : Int, item.start_day = some sd → sd ≠ 0 →
      resolveStartDay sd cfg.length = max 1 (min sd cfg.length) ∧
      (item.end_day = none →
        resolveEndDay (resolveStartDay sd cfg.length) item.end_day cfg.length = cfg.length) ∧
      (∀ e : Int, item.end_day = some e →
        resolveEndDay (resolveStartDay sd cfg.length) item.end_day cfg.length =
          max (resolveStartDay sd cfg.length) (min e cfg.length)) ∧
      (expandItem cfgs item).length =
        (resolveEndDay (resolveStartDay sd cfg.length) item.end_day cfg.length + 1 -
          resolveStartDay sd cfg.length).toNat ∧
      (∀ d : Int,
        mkDefaultEvent item cfg d ∈ expandItem cfgs item ↔
          resolveStartDay sd cfg.length ≤ d ∧
          d ≤ resolveEndDay (resolveStartDay sd cfg.length) item.end_day cfg.length) ∧
      (∀ d : Int, resolveStartDay sd cfg.length ≤ d →
        d ≤ resolveEndDay (resolveStartDay sd cfg.length) item.end_day cfg.length →
        (expandItem cfgs item).count (mkDefaultEvent item cfg d) = 1)) := by
  constructor
  · exact fun h => expandItem_default_skip cfgs item hkind h
  · intro sd hsd h0
    have heq := expandItem_default_eq cfgs item cfg hcfg hkind sd hsd h0
    refine ⟨rfl, ?_, ?_, ?_, ?_, ?_⟩
    · intro he
      rw [he]
      rfl
    · intro e he
      rw [he]
      rfl
    · rw [heq, List.length_map, length_intRange]
    · intro d
      rw [heq]
      constructor
      · intro hm
        obtain ⟨x, hx, hxe⟩ := List.mem_map.mp hm
        rw [← mkDefaultEvent_inj item cfg hxe]
        exact mem_intRange.mp hx
      · intro hb
        exact List.mem_map.mpr ⟨d, mem_intRange.mpr hb, rfl⟩
    · intro d h1 h2
      rw [heq]
      refine List.count_eq_one_of_mem ?_ ?_
      · refine List.Nodup.map_on ?_ (nodup_intRange _ _)
        intro x _ y _ hxy
        exact mkDefaultEvent_inj item cfg hxy
      · exact List.mem_map.mpr ⟨d, mem_intRange.mpr ⟨h1, h2⟩, rfl⟩

/-- C1 witness rule: a negative `startDay` clamps to 1 and `endDay = 99`
clamps to the month length. -/
def c1_rule2 : StandardItem :=
  { id := "c1b", hijri_month := "safar", label := "", period := Period.day_and_night,
    rule_kind := RuleKind.range, start_day := some (-5), end_day := some 99,
    weekdays := none, text := "", sections := none }

/-- Witness for C1 (amended) at a concrete clamped rule: 29 events, one per
day 1..29. -/
theorem C1_default_path_bounds_witness :
    (expandItem [("safar", c1_cfg)] c1_rule2).length =
      (resolveEndDay (resolveStartDay (-5) c1_cfg.length) c1_rule2.end_day c1_cfg.length + 1 -
        resolveStartDay (-5) c1_cfg.length).toNat ∧
    mkDefaultEvent c1_rule2 c1_cfg 7 ∈ expandItem [("safar", c1_cfg)] c1_rule2 := by
  have h := (C1_default_path_bounds [("safar", c1_cfg)] c1_rule2 c1_cfg (by rfl)
    (Or.inr (Or.inl rfl))).2 (-5) rfl (by decide)
  exact ⟨h.2.2.2.1, (h.2.2.2.2.1 7).mpr (by decide)⟩

/-- C2 concrete scenario rule: night rule for day 15 of Ramadan, no label. -/
def c2_rule : StandardItem :=
  { id := "amaal-15", hijri_month := "Ramadan", label := "", period := Period.night,
    rule_kind := RuleKind.specific, start_day := some 15, end_day := some 15,
    weekdays := none, text := "laylat amaal", sections := none }

/-- C2 concrete anchor: Ramadan day 1 = 2024-03-11, 30 days. -/
def c2_cfg : MonthConfig := { startDateISO := daysFromCivil 2024 3 11, length := 30 }

/-- C2 concrete options (timezone Asia/Qatar; coordinates feed only the
abstracted provider). -/
def c2_opts : ExpandOpts :=
  ⟨⟨none, [c2_rule]⟩, [("ramadan", c2_cfg)], "Asia/Qatar", ⟨25, 51⟩⟩

/-- C2: a night rule on the default path emits, for each resolved day `d`,
exactly one all-day event whose start and end instants both lie on
civil-date(d) minus one day and never touch civil-date(d); the Ramadan-2024
scenario yields exactly one all-day event on 2024-03-24 titled "15th
Night". -/
theorem C2_night_non_bleed (cfgs : List (String × MonthConfig)) (item : StandardItem)
    (cfg : MonthConfig)
    (hcfg : cfgs.lookup (normMonth item.hijri_month) = some cfg)
    (hkind : item.rule_kind = RuleKind.specific ∨ item.rule_kind = RuleKind.range ∨
      item.rule_kind = RuleKind.night_general ∨ item.rule_kind = RuleKind.unspecified)
    (hper : item.period = Period.night)
    (sd : Int) (hsd : item.start_day = some sd) (h0 : sd ≠ 0) :
    (∀ ev ∈ expandItem cfgs item, ev.allDay = true ∧
      ∃ d : Int, resolveStartDay sd cfg.length ≤ d ∧
        d ≤ resolveEndDay (resolveStartDay sd cfg.length) item.end_day cfg.length ∧
        ev.startISO = Instant.sod (hijriDayToGregorian cfg d - 1) ∧
        ev.endISO = Instant.eod (hijriDayToGregorian cfg d - 1) ∧
        instantDay ev.startISO = hijriDayToGregorian cfg d - 1 ∧
        instantDay ev.endISO = hijriDayToGregorian cfg d - 1 ∧
        instantDay ev.startISO ≠ hijriDayToGregorian cfg d ∧
        instantDay ev.endISO ≠ hijriDayToGregorian cfg d) ∧
    (∀ d : Int, resolveStartDay sd cfg.length ≤ d →
      d ≤ resolveEndDay (resolveStartDay sd cfg.length) item.end_day cfg.length →
      (expandItem cfgs item).count (mkDefaultEvent item cfg d) = 1) ∧
    expandAmaalEvents c2_opts =
      [{ id := "amaal-15_night_15", title := "15th Night",
         startISO := Instant.sod (daysFromCivil 2024 3 24),
         endISO := Instant.eod (daysFromCivil 2024 3 24),
         allDay := true, description := "laylat amaal", sections := none,
         color := "#2563eb" }] := by
  have heq := expandItem_default_eq cfgs item cfg hcfg hkind sd hsd h0
  refine ⟨?_, ?_, by decide⟩
  · intro ev hev
    rw [heq] at hev
    obtain ⟨d, hd, hde⟩ := List.mem_map.mp hev
    obtain ⟨hd1, hd2⟩ := mem_intRange.mp hd
    subst hde
    refine ⟨?_, d, hd1, hd2, ?_, ?_, ?_, ?_, ?_, ?_⟩ <;>
      simp only [mkDefaultEvent, hper, instantDay, hijriDayToGregorian,
        Instant.sod.injEq, Instant.eod.injEq, ne_eq] <;>
      omega
  · intro d h1 h2
    rw [heq]
    refine List.count_eq_one_of_mem ?_ ?_
    · refine List.Nodup.map_on ?_ (nodup_intRange _ _)
      intro x _ y _ hxy
      exact mkDefaultEvent_inj item cfg hxy
    · exact List.mem_map.mpr ⟨d, mem_intRange.mpr ⟨h1, h2⟩, rfl⟩

/-- Witness for C2 at the concrete Ramadan-2024 scenario: the day-15 night
event appears exactly once. -/
theorem C2_night_non_bleed_witness :
    (expandItem [("ramadan", c2_cfg)] c2_rule).count (mkDefaultEvent c2_rule c2_cfg 15) = 1 :=
  (C2_night_non_bleed [("ramadan", c2_cfg)] c2_rule c2_cfg (by rfl) (Or.inl rfl)
    rfl 15 rfl (by decide)).2.1 15 (by decide) (by decide)

/-- C3 concrete scenario rule: a month-wide rule for Ramadan. -/
def c3_rule : StandardItem :=
  { id := "m3", hijri_month := "Ramadan", label := "Month of Ramadan",
    period := Period.day_and_night, rule_kind := RuleKind.month_all, start_day := none,
    end_day := none, weekdays := none, text := "whole month", sections := none }

/-- C3 concrete anchor: Ramadan day 1 = 2024-03-11, 30 days. -/
def c3_cfg : MonthConfig := { startDateISO := daysFromCivil 2024 3 11, length := 30 }

/-- C3: a month_all / month_any_time rule emits exactly one all-day event
spanning civil-date(day 1) to civil-date(day length+1) exclusive, whatever
the month length; concretely the 2024-03-11 anchor gives a single event from
2024-03-11T00:00 to 2024-04-10T00:00 exclusive. -/
theorem C3_month_wide_single (cfgs : List (String × MonthConfig)) (item : StandardItem)
    (cfg : MonthConfig)
    (hcfg : cfgs.lookup (normMonth item.hijri_month) = some cfg)
    (hkind : item.rule_kind = RuleKind.month_all ∨ item.rule_kind = RuleKind.month_any_time) :
    expandItem cfgs item =
      [{ id := item.id
         title := jsOr item.label item.hijri_month
         startISO := Instant.sod cfg.startDateISO
         endISO := Instant.sod (cfg.startDateISO + cfg.length)
         allDay := true
         description := item.text
         sections := item.sections
         color := "#8b5cf6" }] ∧
    (expandItem cfgs item).length = 1 ∧
    cfg.startDateISO = hijriDayToGregorian cfg 1 ∧
    cfg.startDateISO + cfg.length = hijriDayToGregorian cfg (cfg.length + 1) ∧
    expandAmaalEvents ⟨⟨none, [c3_rule]⟩, [("ramadan", c3_cfg)], "Asia/Qatar", ⟨25, 51⟩⟩ =
      [{ id := "m3", title := "Month of Ramadan",
         startISO := Instant.sod (daysFromCivil 2024 3 11),
         endISO := Instant.sod (daysFromCivil 2024 4 10),
         allDay := true, description := "whole month", sections := none,
         color := "#8b5cf6" }] := by
  have heq := expandItem_month_eq cfgs item cfg hcfg hkind
  refine ⟨heq, by rw [heq]; rfl, ?_, ?_, by decide⟩
  · simp only [hijriDayToGregorian]
    omega
  · simp only [hijriDayToGregorian]
    omega

/-- Witness for C3: the month-wide rule on a 29-day anchor also yields the
single spanning event. -/
theorem C3_month_wide_single_witness :
    expandItem [("ramadan", { startDateISO := 200, length := 29 })] c3_rule =
      [{ id := "m3"
         title := jsOr c3_rule.label c3_rule.hijri_month
         startISO := Instant.sod 200
         endISO := Instant.sod (200 + 29)
         allDay := true
         description := "whole month"
         sections := none
         color := "#8b5cf6" }] :=
  (C3_month_wide_single [("ramadan", { startDateISO := 200, length := 29 })] c3_rule
    { startDateISO := 200, length := 29 } (by rfl) (Or.inl rfl)).1

/-- C10: a night rule whose resolved start day is 1 emits an event dated the
civil day immediately before the month's anchor start date — entirely outside
the span `[startDate, startDate + length)` covered by the configured
month. -/
theorem C10_night_day1_before_anchor (cfgs : List (String × MonthConfig))
    (item : StandardItem) (cfg : MonthConfig)
    (hcfg : cfgs.lookup (normMonth item.hijri_month) = some cfg)
    (hkind : item.rule_kind = RuleKind.specific ∨ item.rule_kind = RuleKind.range ∨
      item.rule_kind = RuleKind.night_general ∨ item.rule_kind = RuleKind.unspecified)
    (hper : item.period = Period.night)
    (sd : Int) (hsd : item.start_day = some sd) (h0 : sd ≠ 0)
    (hres : resolveStartDay sd cfg.length = 1)
    (hlen : 1 ≤ cfg.length) :
    ∃ ev ∈ expandItem cfgs item,
      ev.startISO = Instant.sod (cfg.startDateISO - 1) ∧
      ev.endISO = Instant.eod (cfg.startDateISO - 1) ∧
      instantDay ev.startISO = cfg.startDateISO - 1 ∧
      instantDay ev.endISO = cfg.startDateISO - 1 ∧
      ¬(cfg.startDateISO ≤ instantDay ev.startISO ∧
        instantDay ev.startISO < cfg.startDateISO + cfg.length) ∧
      ¬(cfg.startDateISO ≤ instantDay ev.endISO ∧
        instantDay ev.endISO < cfg.startDateISO + cfg.length) := by
  have heq := expandItem_default_eq cfgs item cfg hcfg hkind sd hsd h0
  have hend : 1 ≤ resolveEndDay (resolveStartDay sd cfg.length) item.end_day cfg.length := by
    rw [hres]
    cases hd : item.end_day with
    | none => simpa [resolveEndDay] using hlen
    | some e =>
      simp only [resolveEndDay]
      omega
  have hmem : mkDefaultEvent item cfg 1 ∈ expandItem cfgs item := by
    rw [heq]
    exact List.mem_map.mpr ⟨1, mem_intRange.mpr ⟨by rw [hres], hend⟩, rfl⟩
  refine ⟨mkDefaultEvent item cfg 1, hmem, ?_, ?_, ?_, ?_, ?_, ?_⟩ <;>
    simp only [mkDefaultEvent, hper, instantDay, hijriDayToGregorian,
      Instant.sod.injEq, Instant.eod.injEq, ne_eq, not_and, not_lt] <;>
    omega

/-- C10 witness rule: a night rule for days 1..2 of a configured month. -/
def c10_rule : StandardItem :=
  { id := "n10", hijri_month := "muharram", label := "", period := Period.night,
    rule_kind := RuleKind.range, start_day := some 1, end_day := some 2,
    weekdays := none, text := "", sections := none }

/-- C10 witness anchor. -/
def c10_cfg : MonthConfig := { startDateISO := 500, length := 30 }

/-- Witness for C10: the day-1 night event sits on epoch day 499, before the
anchor (epoch day 500). -/
theorem C10_night_day1_before_anchor_witness :
    ∃ ev ∈ expandItem [("muharram", c10_cfg)] c10_rule,
      ev.startISO = Instant.sod (c10_cfg.startDateISO - 1) ∧
      ev.endISO = Instant.eod (c10_cfg.startDateISO - 1) ∧
      instantDay ev.startISO = c10_cfg.startDateISO - 1 ∧
      instantDay ev.endISO = c10_cfg.startDateISO - 1 ∧
      ¬(c10_cfg.startDateISO ≤ instantDay ev.startISO ∧
        instantDay ev.startISO < c10_cfg.startDateISO + c10_cfg.length) ∧
      ¬(c10_cfg.startDateISO ≤ instantDay ev.endISO ∧
        instantDay ev.endISO < c10_cfg.startDateISO + c10_cfg.length) :=
  C10_night_day1_before_anchor [("muharram", c10_cfg)] c10_rule c10_cfg (by rfl)
    (Or.inr (Or.inl rfl)) rfl 1 rfl (by decide) (by decide) (by decide)

/-- C4: after expansion the output never contains two events with the same
(title, start, end) triple: it is a subsequence of the pre-dedup event stream
in which every key keeps exactly its earliest occurrence; two same-time
events with different titles have different keys, so both survive. -/
theorem C4_dedup_by_triple (opts : ExpandOpts) :
    (expandAmaalEvents opts).Pairwise (fun a b => dedupKey a ≠ dedupKey b) ∧
    (expandAmaalEvents opts).Sublist (rawEvents opts) ∧
    (∀ ev ∈ rawEvents opts, ∃ evq ∈ expandAmaalEvents opts, dedupKey evq = dedupKey ev) ∧
    (∀ l1 ev l2, rawEvents opts = l1 ++ ev :: l2 →
      (∀ e ∈ l1, dedupKey e ≠ dedupKey ev) → ev ∈ expandAmaalEvents opts) := by
  refine ⟨dedupAux_pairwise _ _, dedupAux_sublist _ _, ?_, ?_⟩
  · intro ev hev
    exact dedupAux_key_covered _ _ ev hev (by simp)
  · intro l1 ev l2 hsplit hfirst
    unfold expandAmaalEvents
    rw [hsplit]
    exact dedupAux_first_mem l1 ev l2 [] hfirst (by simp)

/-- C4 witness rule: an all-day rule for day 2 of Shawwal titled "X". -/
def c4_r1 : StandardItem :=
  { id := "a4", hijri_month := "shawwal", label := "X", period := Period.day_and_night,
    rule_kind := RuleKind.specific, start_day := some 2, end_day := some 2,
    weekdays := none, text := "t", sections := none }

/-- C4 witness rule: same key as `c4_r1` (identical title and instants) under
a different rule id. -/
def c4_r2 : StandardItem := { c4_r1 with id := "b4" }

/-- C4 witness rule: same instants as `c4_r1` but titled "Y". -/
def c4_r3 : StandardItem := { c4_r1 with id := "d4", label := "Y" }

/-- C4 witness options: three rules, two of them with an identical
(title, start, end) triple. -/
def c4_opts : ExpandOpts :=
  ⟨⟨none, [c4_r1, c4_r2, c4_r3]⟩, [("shawwal", { startDateISO := 50, length := 29 })],
   "UTC", ⟨0, 0⟩⟩

/-- Witness for C4: the differently-titled same-time event "Y" survives the
dedup pass (and the duplicate-key "X" copy is indeed dropped). -/
theorem C4_dedup_by_triple_witness :
    ({ id := "d4_allday_2", title := "Y", startISO := Instant.sod 51,
       endISO := Instant.sod 52, allDay := true, description := "t",
       sections := none, color := "#8b5cf6" } : ExpandedEvent) ∈
      expandAmaalEvents c4_opts :=
  (C4_dedup_by_triple c4_opts).2.2.2
    [{ id := "a4_allday_2", title := "X", startISO := Instant.sod 51,
       endISO := Instant.sod 52, allDay := true, description := "t",
       sections := none, color := "#8b5cf6" },
     { id := "b4_allday_2", title := "X", startISO := Instant.sod 51,
       endISO := Instant.sod 52, allDay := true, description := "t",
       sections := none, color := "#8b5cf6" }]
    { id := "d4_allday_2", title := "Y", startISO := Instant.sod 51,
      endISO := Instant.sod 52, allDay := true, description := "t",
      sections := none, color := "#8b5cf6" }
    [] (by decide) (by decide)

/-- C7 counterexample rule: a month-wide rule. -/
def c7_month_rule : StandardItem :=
  { id := "p7a", hijri_month := "rajab", label := "MA", period := Period.day,
    rule_kind := RuleKind.month_all, start_day := none, end_day := none,
    weekdays := none, text := "", sections := none }

/-- C7 counterexample rule: a generic all-day (day_and_night) rule. -/
def c7_generic_rule : StandardItem :=
  { id := "p7b", hijri_month := "rajab", label := "GA", period := Period.day_and_night,
    rule_kind := RuleKind.specific, start_day := some 3, end_day := some 3,
    weekdays := none, text := "", sections := none }

/-- C7 counterexample anchor. -/
def c7_cfg : MonthConfig := { startDateISO := 100, length := 30 }

/-- C7 counterexample: the month-wide hue and the generic all-day hue are the
SAME string "#8b5cf6", so the four categories do not carry four distinct
hues. -/
theorem C7_counterexample_shared_hue :
    (expandItem [("rajab", c7_cfg)] c7_month_rule).map (fun ev => ev.color) = ["#8b5cf6"] ∧
    (expandItem [("rajab", c7_cfg)] c7_generic_rule).map (fun ev => ev.color) = ["#8b5cf6"] := by
  exact ⟨by decide, by decide⟩

/-- C7 (amended): every emitted event's color is a pure function `colorOf` of
the rule's kind and period, drawn from three distinct hues — month-wide and
generic all-day events share "#8b5cf6", day and weekday events get
"#059669", night events "#2563eb". -/
theorem C7_color_policy (cfgs : List (String × MonthConfig)) (item : StandardItem) :
    (∀ ev ∈ expandItem cfgs item, ev.color = colorOf item.rule_kind item.period) ∧
    colorOf RuleKind.month_all Period.day = colorOf RuleKind.specific Period.day_and_night ∧
    ("#8b5cf6" : String) ≠ "#059669" ∧ ("#8b5cf6" : String) ≠ "#2563eb" ∧
    ("#059669" : String) ≠ "#2563eb" := by
  refine ⟨?_, by decide, by decide, by decide, by decide⟩
  intro ev hev
  cases hl : cfgs.lookup (normMonth item.hijri_month) with
  | none =>
    rw [expandItem_lookup_none cfgs item hl] at hev
    cases hev
  | some cfg =>
    rcases ruleKind_cases item.rule_kind with hk | hk | hk
    · rw [expandItem_month_eq cfgs item cfg hl hk] at hev
      rw [List.mem_singleton] at hev
      subst hev
      simp [colorOf, hk]
    · have hknm : ¬(item.rule_kind = RuleKind.month_all ∨
          item.rule_kind = RuleKind.month_any_time) := by
        rcases hk with h | h <;> simp [h]
      rw [expandItem_weekday_eq cfgs item cfg hl hk] at hev
      obtain ⟨d, _, hde⟩ := List.mem_filterMap.mp hev
      by_cases hmem : luxonWeekday (hijriDayToGregorian cfg d) ∈
          (item.weekdays.getD []).map weekdayToLuxon
      · rw [if_pos hmem, Option.some.injEq] at hde
        subst hde
        simp [mkWeekdayEvent, colorOf, hknm, hk]
      · rw [if_neg hmem] at hde
        cases hde
    · have hknm : ¬(item.rule_kind = RuleKind.month_all ∨
          item.rule_kind = RuleKind.month_any_time) := by
        rcases hk with h | h | h | h <;> simp [h]
      have hknw : ¬(item.rule_kind = RuleKind.weekday ∨
          item.rule_kind = RuleKind.weekday_multi) := by
        rcases hk with h | h | h | h <;> simp [h]
      cases hsd : item.start_day with
      | none =>
        rw [expandItem_default_skip cfgs item hk (Or.inl hsd)] at hev
        cases hev
      | some sd =>
        by_cases h0 : sd = 0
        · subst h0
          rw [expandItem_default_skip cfgs item hk (Or.inr hsd)] at hev
          cases hev
        · rw [expandItem_default_eq cfgs item cfg hl hk sd hsd h0] at hev
          obtain ⟨d, _, hde⟩ := List.mem_map.mp hev
          subst hde
          cases hper : item.period <;>
            simp [mkDefaultEvent, hper, colorOf, hknm, hknw]

/-- Witness for C7 at the month-wide concrete rule: its one event carries the
kind/period-determined hue. -/
theorem C7_color_policy_witness :
    ({ id := "p7a", title := "MA", startISO := Instant.sod 100,
       endISO := Instant.sod 130, allDay := true, description := "",
       sections := none, color := "#8b5cf6" } : ExpandedEvent).color =
      colorOf c7_month_rule.rule_kind c7_month_rule.period :=
  (C7_color_policy [("rajab", c7_cfg)] c7_month_rule).1 _ (by decide)

/-- C6: a weekday/weekday_multi rule emits exactly one timed (not all-day)
Fajr→Maghrib event per lunar day in 1..length whose civil weekday is in the
rule's set and none otherwise, titling unlabeled events with the ordinal
"Nth Day"; with weekdays={THU} on a 30-day month whose day 1 is a Sunday it
emits exactly 4 events (hence "4 or 5"), all falling on Thursdays. -/
theorem C6_weekday_rule (cfgs : List (String × MonthConfig)) (item : StandardItem)
    (cfg : MonthConfig)
    (hcfg : cfgs.lookup (normMonth item.hijri_month) = some cfg)
    (hkind : item.rule_kind = RuleKind.weekday ∨ item.rule_kind = RuleKind.weekday_multi) :
    (∀ ev ∈ expandItem cfgs item, ∃ d : Int, 1 ≤ d ∧ d ≤ cfg.length ∧
       luxonWeekday (hijriDayToGregorian cfg d) ∈ (item.weekdays.getD []).map weekdayToLuxon ∧
       ev.allDay = false ∧
       ev.startISO = Instant.fajr (hijriDayToGregorian cfg d) ∧
       ev.endISO = Instant.maghrib (hijriDayToGregorian cfg d) ∧
       ev.title = jsOr item.label (getOrdinal d ++ " Day")) ∧
    (∀ d : Int, 1 ≤ d → d ≤ cfg.length →
       luxonWeekday (hijriDayToGregorian cfg d) ∈ (item.weekdays.getD []).map weekdayToLuxon →
       mkWeekdayEvent item cfg d ∈ expandItem cfgs item) ∧
    ((expandItem cfgs item).map (fun ev => ev.startISO)).Nodup ∧
    (item.weekdays = some ["THU"] → cfg.length = 30 →
      luxonWeekday cfg.startDateISO = 7 →
      ((expandItem cfgs item).length = 4 ∨ (expandItem cfgs item).length = 5) ∧
      ∀ ev ∈ expandItem cfgs item, luxonWeekday (instantDay ev.startISO) = 4) := by
  have heq := expandItem_weekday_eq cfgs item cfg hcfg hkind
  have heq2 : expandItem cfgs item =
      ((intRange 1 cfg.length).filter (fun d =>
        decide (luxonWeekday (hijriDayToGregorian cfg d) ∈
          (item.weekdays.getD []).map weekdayToLuxon))).map (mkWeekdayEvent item cfg) := by
    rw [heq, filterMap_ite]
  have hmain : ∀ ev ∈ expandItem cfgs item, ∃ d : Int, 1 ≤ d ∧ d ≤ cfg.length ∧
      luxonWeekday (hijriDayToGregorian cfg d) ∈ (item.weekdays.getD []).map weekdayToLuxon ∧
      ev = mkWeekdayEvent item cfg d := by
    intro ev hev
    rw [heq] at hev
    obtain ⟨d, hd, hde⟩ := List.mem_filterMap.mp hev
    obtain ⟨hd1, hd2⟩ := mem_intRange.mp hd
    by_cases hmem : luxonWeekday (hijriDayToGregorian cfg d) ∈
        (item.weekdays.getD []).map weekdayToLuxon
    · rw [if_pos hmem, Option.some.injEq] at hde
      exact ⟨d, hd1, hd2, hmem, hde.symm⟩
    · rw [if_neg hmem] at hde
      cases hde
  refine ⟨?_, ?_, ?_, ?_⟩
  · intro ev hev
    obtain ⟨d, h1, h2, hm, rfl⟩ := hmain ev hev
    exact ⟨d, h1, h2, hm, rfl, rfl, rfl, rfl⟩
  · intro d h1 h2 hm
    rw [heq]
    exact List.mem_filterMap.mpr ⟨d, mem_intRange.mpr ⟨h1, h2⟩, by rw [if_pos hm]⟩
  · rw [heq2, List.map_map]
    refine List.Nodup.map_on ?_ (List.Nodup.filter _ (nodup_intRange _ _))
    intro x _ y _ hxy
    have hg : hijriDayToGregorian cfg x = hijriDayToGregorian cfg y := by
      simpa [mkWeekdayEvent, getPrayerTimesAccurate, Function.comp] using hxy
    simp only [hijriDayToGregorian] at hg
    omega
  · intro hw hlen hsun
    have htarget : (item.weekdays.getD []).map weekdayToLuxon = [4] := by
      rw [hw]
      rfl
    have hsun' : (cfg.startDateISO + 3) % 7 + 1 = 7 := hsun
    have hcongr : ∀ d ∈ intRange 1 cfg.length,
        (decide (luxonWeekday (hijriDayToGregorian cfg d) ∈
          (item.weekdays.getD []).map weekdayToLuxon)) = decide (d % 7 = 5) := by
      intro d _
      rw [htarget]
      simp only [List.mem_singleton, decide_eq_decide, luxonWeekday, hijriDayToGregorian]
      omega
    have hlist : (intRange 1 cfg.length).filter (fun d =>
        decide (luxonWeekday (hijriDayToGregorian cfg d) ∈
          (item.weekdays.getD []).map weekdayToLuxon)) = [5, 12, 19, 26] := by
      rw [List.filter_congr hcongr, hlen]
      decide
    constructor
    · left
      rw [heq2, hlist]
      rfl
    · intro ev hev
      obtain ⟨d, _, _, hm, rfl⟩ := hmain ev hev
      rw [htarget, List.mem_singleton] at hm
      exact hm

/-- C6 witness rule: every Thursday of Shabaan, Fajr→Maghrib. -/
def c6_rule : StandardItem :=
  { id := "w6", hijri_month := "shabaan", label := "", period := Period.day,
    rule_kind := RuleKind.weekday, start_day := none, end_day := none,
    weekdays := some ["THU"], text := "", sections := none }

/-- C6 witness anchor: epoch day 3 (1970-01-04) is a Sunday; 30 days. -/
def c6_cfg : MonthConfig := { startDateISO := 3, length := 30 }

/-- Witness for C6: the Sunday-anchored 30-day month yields 4 (hence "4 or
5") Thursday events. -/
theorem C6_weekday_rule_witness :
    ((expandItem [("shabaan", c6_cfg)] c6_rule).length = 4 ∨
     (expandItem [("shabaan", c6_cfg)] c6_rule).length = 5) :=
  ((C6_weekday_rule [("shabaan", c6_cfg)] c6_rule c6_cfg (by rfl) (Or.inl rfl)).2.2.2
    rfl rfl (by decide)).1
